import Mathlib

set_option maxHeartbeats 1000000

namespace TwitterApi

/-! Shallow embedding of src/src/utils/api.ts: the data shapes that file reads
from API responses, and its extraction and URL-formatting functions. -/

/-- One media quality variant of a video or animated gif: an optional bitrate
and a download URL. -/
structure Variant where
  bitrate : Option Nat
  url : String
deriving DecidableEq

/-- Video metadata holding the ordered variant list. -/
structure VideoInfo where
  variants : List Variant
deriving DecidableEq

/-- A media record: its type tag (photo, video or animated_gif), the base
secure URL, and optional video metadata. -/
structure Media where
  type : String
  media_url_https : String
  video_info : Option VideoInfo
deriving DecidableEq

/-- Legacy entities of a tweet: an optional media list. An empty list present
on the wire is distinct from an absent field. -/
structure Entities where
  media : Option (List Media)
deriving DecidableEq

/-- Legacy user record; the screen name may be missing on the wire. -/
structure UserLegacy where
  screen_name : Option String
deriving DecidableEq

/-- A user result; the legacy record may be missing on the wire. -/
structure User where
  legacy : Option UserLegacy
deriving DecidableEq

/-- The user_results wrapper; the result may be missing on the wire. -/
structure UserResults where
  result : Option User
deriving DecidableEq

/-- The core field of a tweet, holding the author lookup. -/
structure TweetCore where
  user_results : Option UserResults
deriving DecidableEq

/-- The inner result of a note tweet, carrying the long-form text. -/
structure NoteTweetResult where
  text : String
deriving DecidableEq

/-- The note_tweet_results wrapper. -/
structure NoteTweetResults where
  result : NoteTweetResult
deriving DecidableEq

/-- The note extension of a tweet. -/
structure NoteTweet where
  note_tweet_results : NoteTweetResults
deriving DecidableEq

mutual

/-- A tweet record with the fields read by the extractors: optional core,
legacy data, optional note extension and optional quoted status. -/
inductive Tweet where
  | mk (core : Option TweetCore) (legacy : TweetLegacy)
       (note_tweet : Option NoteTweet) (quoted_status_result : Option TweetItemResult)

/-- The legacy part of a tweet: full text, entities, optional extended
entities and an optional retweeted status reference. -/
inductive TweetLegacy where
  | mk (full_text : String) (entities : Entities) (extended_entities : Option Entities)
       (retweeted_status_result : Option TweetItemResult)

/-- An item result wrapper whose result field may be absent. -/
inductive TweetItemResult where
  | mk (result : Option TweetUnion)

/-- The union the visibility unwrapper receives at runtime: a plain tweet, a
visibility wrapper holding a tweet (discriminated on the wire by the typename
TweetWithVisibilityResults), or a null value. -/
inductive TweetUnion where
  | null
  | tweet (t : Tweet)
  | withVisibility (t : Tweet)

end

def Tweet.core : Tweet → Option TweetCore
  | .mk c _ _ _ => c

def Tweet.legacy : Tweet → TweetLegacy
  | .mk _ l _ _ => l

def Tweet.note_tweet : Tweet → Option NoteTweet
  | .mk _ _ n _ => n

def Tweet.quoted_status_result : Tweet → Option TweetItemResult
  | .mk _ _ _ q => q

def TweetLegacy.full_text : TweetLegacy → String
  | .mk f _ _ _ => f

def TweetLegacy.entities : TweetLegacy → Entities
  | .mk _ e _ _ => e

def TweetLegacy.extended_entities : TweetLegacy → Option Entities
  | .mk _ _ x _ => x

def TweetLegacy.retweeted_status_result : TweetLegacy → Option TweetItemResult
  | .mk _ _ _ r => r

def TweetItemResult.result : TweetItemResult → Option TweetUnion
  | .mk r => r

/-! Timeline response shapes used by the generic decoder. -/

/-- The content of a timeline entry: an entryType discriminator string, an
optional item payload and an optional module item list. -/
structure TimelineEntryContent (P : Type) where
  entryType : String
  itemContent : Option P
  items : Option (List P)
deriving DecidableEq

/-- A timeline entry: a string id and a polymorphic content. -/
structure TimelineEntry (P : Type) where
  entryId : String
  content : TimelineEntryContent P
deriving DecidableEq

/-- A timeline instruction: a type tag; only AddEntries instructions carry an
entries list, so the field is optional. -/
structure TimelineInstruction (P : Type) where
  type : String
  entries : Option (List (TimelineEntry P))
deriving DecidableEq

/-- Type predicate isTimelineEntryItem from the source: the content entryType
equals TimelineTimelineItem. -/
def isTimelineEntryItem {P : Type} (entry : TimelineEntry P) : Bool :=
  entry.content.entryType == "TimelineTimelineItem"

/-- The entry loop of extractDataFromResponse: for each entry that narrows to
an item entry, apply the extractor and keep a present result, in order. -/
def collectTimelineData {P T : Type} (f : TimelineEntry P → Option T) :
    List (TimelineEntry P) → List T
  | [] => []
  | entry :: rest =>
    if isTimelineEntryItem entry then
      match f entry with
      | some data => data :: collectTimelineData f rest
      | none => collectTimelineData f rest
    else collectTimelineData f rest

/-- extractDataFromResponse from the source, over an already parsed JSON body.
The none result models the unguarded runtime failure raised when no
TimelineAddEntries instruction is found (the property access on undefined). -/
def extractDataFromResponse {R P T : Type}
    (json : R)
    (extractInstructionsFromJson : R → List (TimelineInstruction P))
    (extractDataFromTimelineEntry : TimelineEntry P → Option T) : Option (List T) :=
  match (extractInstructionsFromJson json).find? (fun i => i.type == "TimelineAddEntries") with
  | none => none
  | some instr =>
    match instr.entries with
    | none => none
    | some entries => some (collectTimelineData extractDataFromTimelineEntry entries)

/-! Object extractors. -/

/-- extractTweetWithVisibility from the source: a visibility wrapper yields its
inner tweet; every other payload, including null, is returned unchanged. -/
def extractTweetWithVisibility : TweetUnion → TweetUnion
  | .withVisibility t => .tweet t
  | x => x

/-- Narrow a union value back to a tweet, when it holds one. -/
def tweetOfUnion : TweetUnion → Option Tweet
  | .tweet t => some t
  | .withVisibility t => some t
  | .null => none

/-- extractRetweetedTweet from the source: when the legacy retweeted status
reference holds a truthy result, unwrap its visibility; else null. -/
def extractRetweetedTweet (tweet : Tweet) : Option Tweet :=
  match tweet.legacy.retweeted_status_result with
  | some ir =>
    match ir.result with
    | some TweetUnion.null => none
    | some u => tweetOfUnion (extractTweetWithVisibility u)
    | none => none
  | none => none

/-- extractQuotedTweet from the source: symmetric on the quoted status. -/
def extractQuotedTweet (tweet : Tweet) : Option Tweet :=
  match tweet.quoted_status_result with
  | some ir =>
    match ir.result with
    | some TweetUnion.null => none
    | some u => tweetOfUnion (extractTweetWithVisibility u)
    | none => none
  | none => none

/-- The field navigation core.user_results.result.legacy.screen_name with the
runtime failure model: a property access on an absent object throws, while a
missing final screen_name simply yields an absent value. -/
def navigateScreenName (tweet : Tweet) : Except Unit (Option String) :=
  match tweet.core with
  | none => Except.error ()
  | some c =>
    match c.user_results with
    | none => Except.error ()
    | some ur =>
      match ur.result with
      | none => Except.error ()
      | some u =>
        match u.legacy with
        | none => Except.error ()
        | some leg => Except.ok leg.screen_name

/-- extractTweetUserScreenName from the source: a thrown navigation failure is
caught, logged once through the sink, and replaced by the READ_ERROR sentinel.
The second component counts events sent to the logging sink. -/
def extractTweetUserScreenName (tweet : Tweet) : Option String × Nat :=
  match navigateScreenName tweet with
  | Except.error _ => (some "READ_ERROR", 1)
  | Except.ok v => (v, 0)

/-- extractTweetMedia from the source: resolve the real tweet through the
retweet reference, then prefer extended entities media, then legacy entities
media, then the empty list. -/
def extractTweetMedia (tweet : Tweet) : List Media :=
  let realTweet := (extractRetweetedTweet tweet).getD tweet
  match realTweet.legacy.extended_entities with
  | some ee =>
    match ee.media with
    | some ms => ms
    | none => realTweet.legacy.entities.media.getD []
  | none => realTweet.legacy.entities.media.getD []

/-- extractTweetFullText from the source: the note extension text when the
note extension is present, else the legacy full text. -/
def extractTweetFullText (tweet : Tweet) : String :=
  match tweet.note_tweet with
  | some nt => nt.note_tweet_results.result.text
  | none => tweet.legacy.full_text

/-! Media operations. -/

/-- The size names accepted by formatTwitterImage. -/
inductive ImageSize where
  | thumb
  | small
  | medium
  | large
  | orig
deriving DecidableEq

def ImageSize.toStr : ImageSize → String
  | .thumb => "thumb"
  | .small => "small"
  | .medium => "medium"
  | .large => "large"
  | .orig => "orig"

/-- The word character class of the regexes: ASCII letters, digits and the
underscore. -/
def isWordChar (c : Char) : Bool :=
  c.isAlphanum || c == '_'

/-- A line terminator, which the dot of the regexes never matches. -/
def isLineTerm (c : Char) : Bool :=
  c == '\n' || c == '\r'

/-- The literal media host prefixes of the formatTwitterImage regex, with and
without the optional s of https. -/
def mediaHostA : List Char := "https://pbs.twimg.com/media/".toList

def mediaHostB : List Char := "http://pbs.twimg.com/media/".toList

/-- Strip the media host prefix of the formatTwitterImage regex, returning the
matched prefix and the remaining characters. -/
def stripMediaHost (cs : List Char) : Option (List Char × List Char) :=
  if mediaHostA.isPrefixOf cs then some (mediaHostA, cs.drop mediaHostA.length)
  else if mediaHostB.isPrefixOf cs then some (mediaHostB, cs.drop mediaHostB.length)
  else none

/-- Split a character list at its last dot, returning the parts before and
after the dot. -/
def splitLastDot : List Char → Option (List Char × List Char)
  | [] => none
  | c :: rest =>
    match splitLastDot rest with
    | some (b, a) => some (c :: b, a)
    | none => if c == '.' then some ([], rest) else none

/-- The anchored formatTwitterImage regex: the media host prefix, a nonempty
middle without line terminators, a dot, then a nonempty word run to the end.
Greedy dot-plus with backtracking makes the last dot the only split point. -/
def twitterImageMatch (cs : List Char) : Option (List Char × List Char × List Char) :=
  match stripMediaHost cs with
  | none => none
  | some (h, r) =>
    match splitLastDot r with
    | none => none
    | some (b, a) =>
      if !b.isEmpty && !a.isEmpty && a.all isWordChar && b.all (fun c => !isLineTerm c)
      then some (h, b, a) else none

/-- formatTwitterImage from the source: a media URL with a dotted extension is
rewritten into the query parameter form; any other URL gets the name query
parameter appended. The source declares medium as the default size argument. -/
def formatTwitterImage (imgUrl : String) (sz : ImageSize) : String :=
  match twitterImageMatch imgUrl.toList with
  | some (h, b, a) =>
    (h ++ b).asString ++ "?format=" ++ a.asString ++ "&name=" ++ sz.toStr
  | none => imgUrl ++ "?name=" ++ sz.toStr

/-! Variant selection of getMediaOriginalUrl. -/

/-- The bitrate of a variant with a missing bitrate read as zero. -/
def variantBitrate (v : Variant) : Nat :=
  v.bitrate.getD 0

/-- The current best bitrate of the loop, zero when no variant is held or the
held variant has no bitrate. -/
def currentBitrate : Option Variant → Nat
  | none => 0
  | some v => variantBitrate v

/-- The selection loop of getMediaOriginalUrl: a variant replaces the current
best exactly when its bitrate is present, nonzero and strictly greater. -/
def pickMaxVariant : Option Variant → List Variant → Option Variant
  | mv, [] => mv
  | mv, v :: rest =>
    match v.bitrate with
    | some b =>
      if b ≠ 0 ∧ b > currentBitrate mv then pickMaxVariant (some v) rest
      else pickMaxVariant mv rest
    | none => pickMaxVariant mv rest

/-- The variant list of a media record, empty when video_info is absent. -/
def mediaVariants (m : Media) : List Variant :=
  match m.video_info with
  | some vi => vi.variants
  | none => []

/-- getMediaOriginalUrl from the source: for video and animated_gif media run
the bitrate selection loop seeded with the first variant, falling back to the
base URL; for photos reformat the base URL at original size. -/
def getMediaOriginalUrl (m : Media) : String :=
  if m.type == "video" || m.type == "animated_gif" then
    match pickMaxVariant (mediaVariants m).head? (mediaVariants m) with
    | some v => v.url
    | none => m.media_url_https
  else formatTwitterImage m.media_url_https ImageSize.orig

/-! The extension extraction regex of getFileExtensionFromUrl. -/

def formatLit : List Char := "format=".toList

/-- Alternative one of the regex: the literal format= followed by a nonempty
word run, captured. -/
def altFormat (cs : List Char) : Option (List Char) :=
  if formatLit.isPrefixOf cs then
    let w := (cs.drop formatLit.length).takeWhile isWordChar
    if w.isEmpty then none else some w
  else none

/-- Alternative two of the regex: a dot followed by a nonempty word run that
reaches the end of the string, captured. -/
def altTrailingDot : List Char → Option (List Char)
  | '.' :: rest =>
    if rest.isEmpty then none
    else if rest.all isWordChar then some rest else none
  | _ => none

/-- Alternative three of the regex: a dot, a nonempty maximal word run, a
question mark, then at least one character with no line terminator to the
end; the word run is captured. -/
def altDotQuery : List Char → Option (List Char)
  | '.' :: rest =>
    let w := rest.takeWhile isWordChar
    if w.isEmpty then none
    else
      match rest.dropWhile isWordChar with
      | '?' :: t =>
        if !t.isEmpty && t.all (fun c => !isLineTerm c) then some w else none
      | _ => none
  | _ => none

/-- Which capture group of the extension regex participated in the match. -/
inductive ExtMatchGroup where
  | g1 (w : List Char)
  | g2 (w : List Char)
  | g3 (w : List Char)
deriving DecidableEq

/-- Try the three alternatives of the extension regex at one position, in the
order they appear in the pattern. -/
def tryExtAlts (cs : List Char) : Option ExtMatchGroup :=
  match altFormat cs with
  | some w => some (ExtMatchGroup.g1 w)
  | none =>
    match altTrailingDot cs with
    | some w => some (ExtMatchGroup.g2 w)
    | none =>
      match altDotQuery cs with
      | some w => some (ExtMatchGroup.g3 w)
      | none => none

/-- Regex search: scan start positions left to right and return the first
position where some alternative matches, alternatives in pattern order. -/
def findExtMatch : List Char → Option ExtMatchGroup
  | [] => none
  | c :: rest =>
    match tryExtAlts (c :: rest) with
    | some m => some m
    | none => findExtMatch rest

/-- The captured characters of a match group. -/
def extGroupValue : ExtMatchGroup → List Char
  | .g1 w => w
  | .g2 w => w
  | .g3 w => w

/-- getFileExtensionFromUrl from the source: the capture of the first
participating group of the regex match, defaulting to jpg. -/
def getFileExtensionFromUrl (url : String) : String :=
  match findExtMatch url.toList with
  | some m => (extGroupValue m).asString
  | none => "jpg"

/-- Scan start positions left to right for a single alternative. -/
def scanFor (alt : List Char → Option (List Char)) : List Char → Option (List Char)
  | [] => none
  | c :: rest =>
    match alt (c :: rest) with
    | some w => some w
    | none => scanFor alt rest

/-- Modelled from the claim wording for comparison: attempt the format
parameter anywhere in the string first, then a trailing dotted extension,
then a dotted extension before a query string, defaulting to jpg. -/
def specFileExtensionClaim (url : String) : String :=
  match scanFor altFormat url.toList with
  | some w => w.asString
  | none =>
    match scanFor altTrailingDot url.toList with
    | some w => w.asString
    | none =>
      match scanFor altDotQuery url.toList with
      | some w => w.asString
      | none => "jpg"

/-! Theorems. -/

theorem collectTimelineData_eq_filterMap {P T : Type} (f : TimelineEntry P → Option T)
    (es : List (TimelineEntry P)) :
    collectTimelineData f es =
      es.filterMap (fun e => if isTimelineEntryItem e then f e else none) := by
  induction es with
  | nil => rfl
  | cons e rest ih =>
    by_cases h : isTimelineEntryItem e
    · cases hf : f e <;>
        simp [collectTimelineData, h, hf, List.filterMap_cons, ih]
    · simp [collectTimelineData, h, List.filterMap_cons, ih]

theorem filterMap_guard_length {α β : Type} (p : α → Bool) (f : α → Option β)
    (es : List α) :
    (es.filterMap (fun e => if p e then f e else none)).length ≤
      (es.filter p).length := by
  induction es with
  | nil => simp
  | cons e rest ih =>
    by_cases h : p e
    · cases hf : f e <;>
        simp [List.filterMap_cons, List.filter_cons, h, hf] <;> omega
    · simp [List.filterMap_cons, List.filter_cons, h, ih]

/-- Claim C1: when the instruction list holds a TimelineAddEntries instruction
with an entries list, extractDataFromResponse succeeds and returns exactly the
order preserving filterMap of the extractor over the entries, where entries
that do not narrow to item entries and item entries whose extractor yields no
value are dropped; the output length is at most the number of item entries. -/
theorem extractDataFromResponse_addEntries_order {R P T : Type}
    (json : R) (getInstrs : R → List (TimelineInstruction P))
    (f : TimelineEntry P → Option T) (instr : TimelineInstruction P)
    (entries : List (TimelineEntry P))
    (hfind : (getInstrs json).find? (fun i => i.type == "TimelineAddEntries") = some instr)
    (hentries : instr.entries = some entries) :
    extractDataFromResponse json getInstrs f =
      some (entries.filterMap (fun e => if isTimelineEntryItem e then f e else none)) ∧
    (entries.filterMap (fun e => if isTimelineEntryItem e then f e else none)).length ≤
      (entries.filter (fun e => isTimelineEntryItem e)).length := by
  constructor
  · unfold extractDataFromResponse
    simp [hfind, hentries, collectTimelineData_eq_filterMap]
  · exact filterMap_guard_length _ f entries

def exEntries : List (TimelineEntry Nat) :=
  [⟨"tweet-1", ⟨"TimelineTimelineItem", some 5, none⟩⟩,
   ⟨"cursor-top", ⟨"TimelineTimelineCursor", none, none⟩⟩,
   ⟨"tweet-2", ⟨"TimelineTimelineItem", none, none⟩⟩,
   ⟨"tweet-3", ⟨"TimelineTimelineItem", some 7, none⟩⟩]

def exInstructions : List (TimelineInstruction Nat) :=
  [⟨"TimelineClearCache", none⟩, ⟨"TimelineAddEntries", some exEntries⟩]

def exNoAddInstructions : List (TimelineInstruction Nat) :=
  [⟨"TimelineClearCache", none⟩, ⟨"TimelineTerminateTimeline", none⟩]

def exExtractor : TimelineEntry Nat → Option Nat :=
  fun e => e.content.itemContent

theorem extractDataFromResponse_addEntries_order_witness :
    extractDataFromResponse exInstructions id exExtractor = some [5, 7] ∧
    ([5, 7] : List Nat).length ≤
      (exEntries.filter (fun e => isTimelineEntryItem e)).length := by
  have h := extractDataFromResponse_addEntries_order exInstructions id exExtractor
    ⟨"TimelineAddEntries", some exEntries⟩ exEntries (by decide) rfl
  refine ⟨h.1.trans (by decide), ?_⟩
  have h2 := h.2
  simpa using h2

/-- Claim C2: when no instruction in the list is tagged TimelineAddEntries,
extractDataFromResponse fails with the unguarded downstream failure, modelled
by the none result, rather than returning an empty or partial list. -/
theorem extractDataFromResponse_missingInstruction {R P T : Type}
    (json : R) (getInstrs : R → List (TimelineInstruction P))
    (f : TimelineEntry P → Option T)
    (h : ∀ i ∈ getInstrs json, ¬ i.type = "TimelineAddEntries") :
    extractDataFromResponse json getInstrs f = none := by
  unfold extractDataFromResponse
  have hnone : (getInstrs json).find? (fun i => i.type == "TimelineAddEntries") = none := by
    rw [List.find?_eq_none]
    intro x hx
    simpa using h x hx
  simp [hnone]

theorem extractDataFromResponse_missingInstruction_witness :
    extractDataFromResponse exNoAddInstructions id exExtractor = none :=
  extractDataFromResponse_missingInstruction exNoAddInstructions id exExtractor
    (by decide)

/-- Claim C6 theorem: the note extension text always wins when the note
extension is present, and otherwise the legacy full text is returned. -/
theorem extractTweetFullText_note_precedence (t : Tweet) :
    (∀ nt, t.note_tweet = some nt →
        extractTweetFullText t = nt.note_tweet_results.result.text) ∧
    (t.note_tweet = none → extractTweetFullText t = t.legacy.full_text) := by
  constructor
  · intro nt h
    simp [extractTweetFullText, h]
  · intro h
    simp [extractTweetFullText, h]

def exLegacyOnly : Tweet :=
  Tweet.mk none (TweetLegacy.mk "short" ⟨none⟩ none none) none none

def exNoted : Tweet :=
  Tweet.mk none (TweetLegacy.mk "short" ⟨none⟩ none none)
    (some ⟨⟨⟨"much longer text"⟩⟩⟩) none

theorem extractTweetFullText_note_precedence_witness :
    extractTweetFullText exNoted = "much longer text" ∧
    extractTweetFullText exLegacyOnly = "short" :=
  ⟨(extractTweetFullText_note_precedence exNoted).1 ⟨⟨⟨"much longer text"⟩⟩⟩ rfl,
   (extractTweetFullText_note_precedence exLegacyOnly).2 rfl⟩

/-- Claim C7 theorem: extractTweetWithVisibility is idempotent on every
payload, so applying it twice is a no-op. -/
theorem extractTweetWithVisibility_idempotent (x : TweetUnion) :
    extractTweetWithVisibility (extractTweetWithVisibility x) =
      extractTweetWithVisibility x := by
  cases x <;> rfl

/-- Claim C10 theorem: every payload that is not a visibility wrapper, the
null payload included, is returned unchanged, and a visibility wrapper is
mapped to its inner tweet. -/
theorem extractTweetWithVisibility_total (x : TweetUnion) :
    ((∀ t, x ≠ TweetUnion.withVisibility t) → extractTweetWithVisibility x = x) ∧
    (∀ t, x = TweetUnion.withVisibility t →
        extractTweetWithVisibility x = TweetUnion.tweet t) := by
  constructor
  · intro h
    cases x with
    | null => rfl
    | tweet u => exact rfl
    | withVisibility u => exact absurd rfl (h u)
  · intro t h
    subst h
    rfl

theorem extractTweetWithVisibility_total_witness :
    extractTweetWithVisibility TweetUnion.null = TweetUnion.null :=
  (extractTweetWithVisibility_total TweetUnion.null).1
    (fun _ h => TweetUnion.noConfusion h)

/-- Claim C8 theorem: when navigating the screen name path throws, because
one of core, user_results, result or legacy is absent, the failure is caught,
exactly one event is logged and the READ_ERROR sentinel is returned; when the
navigation succeeds the screen name found there is returned with no logging. -/
theorem extractTweetUserScreenName_spec (t : Tweet) :
    ((t.core = none ∨
      (∃ c, t.core = some c ∧ c.user_results = none) ∨
      (∃ c ur, t.core = some c ∧ c.user_results = some ur ∧ ur.result = none) ∨
      (∃ c ur u, t.core = some c ∧ c.user_results = some ur ∧ ur.result = some u ∧
        u.legacy = none)) →
      extractTweetUserScreenName t = (some "READ_ERROR", 1)) ∧
    (∀ c ur u leg, t.core = some c → c.user_results = some ur → ur.result = some u →
      u.legacy = some leg → extractTweetUserScreenName t = (leg.screen_name, 0)) := by
  constructor
  · rintro (h | ⟨c, hc, h⟩ | ⟨c, ur, hc, hur, h⟩ | ⟨c, ur, u, hc, hur, hu, h⟩) <;>
      simp [extractTweetUserScreenName, navigateScreenName, *]
  · intro c ur u leg hc hur hu hleg
    simp [extractTweetUserScreenName, navigateScreenName, hc, hur, hu, hleg]

def exNoCore : Tweet :=
  Tweet.mk none (TweetLegacy.mk "" ⟨none⟩ none none) none none

def exWithScreenName : Tweet :=
  Tweet.mk (some ⟨some ⟨some ⟨some ⟨some "alice"⟩⟩⟩⟩)
    (TweetLegacy.mk "" ⟨none⟩ none none) none none

theorem extractTweetUserScreenName_spec_witness :
    extractTweetUserScreenName exNoCore = (some "READ_ERROR", 1) ∧
    extractTweetUserScreenName exWithScreenName = (some "alice", 0) :=
  ⟨(extractTweetUserScreenName_spec exNoCore).1 (Or.inl rfl),
   (extractTweetUserScreenName_spec exWithScreenName).2
     ⟨some ⟨some ⟨some ⟨some "alice"⟩⟩⟩⟩ ⟨some ⟨some ⟨some "alice"⟩⟩⟩
     ⟨some ⟨some "alice"⟩⟩ ⟨some "alice"⟩ rfl rfl rfl rfl⟩

/-- Modelled from the spec wording of mediaList: resolve the real tweet, then
prefer the extended entities media list over the legacy entities media list
when present, defaulting to the empty list. -/
def spec_realTweet (tweet : Tweet) : Tweet :=
  match extractRetweetedTweet tweet with
  | some rt => rt
  | none => tweet

def spec_mediaList (tweet : Tweet) : List Media :=
  (((spec_realTweet tweet).legacy.extended_entities.bind Entities.media).or
      (spec_realTweet tweet).legacy.entities.media).getD []

def exMedia1 : Media := ⟨"photo", "https://pbs.twimg.com/media/one.jpg", none⟩

def exMedia2 : Media := ⟨"photo", "https://pbs.twimg.com/media/two.jpg", none⟩

def exTargetTweet : Tweet :=
  Tweet.mk none
    (TweetLegacy.mk "target" ⟨none⟩ (some ⟨some [exMedia1, exMedia2]⟩) none) none none

def exRetweetWrapper : Tweet :=
  Tweet.mk none
    (TweetLegacy.mk "RT" ⟨some []⟩ none
      (some (TweetItemResult.mk (some (TweetUnion.tweet exTargetTweet))))) none none

/-- Claim C5 theorem: extractTweetMedia agrees everywhere with the spec level
description that resolves the real tweet through the retweet reference and
prefers extended entities media, then entities media, then the empty list;
and on a retweet wrapper with an empty own media list it returns the media
items of the target tweet. -/
theorem extractTweetMedia_spec :
    (∀ t : Tweet, extractTweetMedia t = spec_mediaList t) ∧
    extractTweetMedia exRetweetWrapper = [exMedia1, exMedia2] := by
  constructor
  · intro t
    unfold extractTweetMedia spec_mediaList spec_realTweet
    cases hr : extractRetweetedTweet t with
    | none =>
      cases hx : t.legacy.extended_entities with
      | none => simp [hx]
      | some ee => cases hm : ee.media <;> simp [hx, hm]
    | some rt =>
      cases hx : rt.legacy.extended_entities with
      | none => simp [hx]
      | some ee => cases hm : ee.media <;> simp [hx, hm]
  · rfl

/-! Variant selection lemmas for getMediaOriginalUrl. -/

/-- The greatest bitrate over a variant list, missing bitrates read as zero. -/
def listMaxBitrate (vs : List Variant) : Nat :=
  vs.foldr (fun v acc => max (variantBitrate v) acc) 0

theorem pickMaxVariant_cons (m v : Variant) (rest : List Variant) :
    pickMaxVariant (some m) (v :: rest) =
      if variantBitrate m < variantBitrate v then pickMaxVariant (some v) rest
      else pickMaxVariant (some m) rest := by
  cases hb : v.bitrate with
  | none =>
    have hv : variantBitrate v = 0 := by simp [variantBitrate, hb]
    rw [hv, if_neg (Nat.not_lt_zero _)]
    simp [pickMaxVariant, hb]
  | some b =>
    have hv : variantBitrate v = b := by simp [variantBitrate, hb]
    rw [hv]
    simp only [pickMaxVariant, hb, currentBitrate]
    rcases Nat.lt_or_ge (variantBitrate m) b with h | h
    · rw [if_pos ⟨by omega, h⟩, if_pos h]
    · rw [if_neg (by omega), if_neg (by omega)]

theorem pickMaxVariant_spec (vs : List Variant) : ∀ m : Variant,
    (listMaxBitrate vs ≤ variantBitrate m → pickMaxVariant (some m) vs = some m) ∧
    (variantBitrate m < listMaxBitrate vs →
      pickMaxVariant (some m) vs =
        vs.find? (fun v => variantBitrate v == listMaxBitrate vs)) := by
  induction vs with
  | nil =>
    intro m
    refine ⟨fun _ => rfl, fun h => ?_⟩
    simp [listMaxBitrate] at h
  | cons v rest ih =>
    intro m
    have hmax : listMaxBitrate (v :: rest) =
        max (variantBitrate v) (listMaxBitrate rest) := rfl
    constructor
    · intro h
      rw [hmax] at h
      rw [pickMaxVariant_cons, if_neg (by omega)]
      exact (ih m).1 (by omega)
    · intro h
      rw [hmax] at h
      rw [pickMaxVariant_cons]
      by_cases hlt : variantBitrate m < variantBitrate v
      · rw [if_pos hlt]
        rcases le_or_lt (listMaxBitrate rest) (variantBitrate v) with hle | hgt
        · rw [(ih v).1 hle]
          have hfv : (variantBitrate v == listMaxBitrate (v :: rest)) = true := by
            rw [hmax]
            simp
            omega
          simp [List.find?_cons, hfv]
        · rw [(ih v).2 hgt]
          have hmax2 : listMaxBitrate (v :: rest) = listMaxBitrate rest := by
            rw [hmax]; omega
          rw [hmax2]
          have hfv : (variantBitrate v == listMaxBitrate rest) = false := by
            simp
            omega
          simp [List.find?_cons, hfv]
      · rw [if_neg hlt]
        have hgt : variantBitrate m < listMaxBitrate rest := by omega
        rw [(ih m).2 hgt]
        have hmax2 : listMaxBitrate (v :: rest) = listMaxBitrate rest := by
          rw [hmax]; omega
        rw [hmax2]
        have hfv : (variantBitrate v == listMaxBitrate rest) = false := by
          simp
          omega
        simp [List.find?_cons, hfv]

theorem pickMaxVariant_head (v0 : Variant) (rest : List Variant) :
    pickMaxVariant (some v0) (v0 :: rest) =
      (v0 :: rest).find? (fun v => variantBitrate v == listMaxBitrate (v0 :: rest)) := by
  rw [pickMaxVariant_cons, if_neg (lt_irrefl _)]
  have hmax : listMaxBitrate (v0 :: rest) =
      max (variantBitrate v0) (listMaxBitrate rest) := rfl
  rcases le_or_lt (listMaxBitrate rest) (variantBitrate v0) with hle | hgt
  · rw [(pickMaxVariant_spec rest v0).1 hle]
    have hfv : (variantBitrate v0 == listMaxBitrate (v0 :: rest)) = true := by
      rw [hmax]
      simp
      omega
    simp [List.find?_cons, hfv]
  · rw [(pickMaxVariant_spec rest v0).2 hgt]
    have hmax2 : listMaxBitrate (v0 :: rest) = listMaxBitrate rest := by
      rw [hmax]; omega
    rw [hmax2]
    have hfv : (variantBitrate v0 == listMaxBitrate rest) = false := by
      simp
      omega
    simp [List.find?_cons, hfv]

/-- Claim C4 theorem: for video and animated_gif media, getMediaOriginalUrl
returns the URL of the first variant attaining the greatest bitrate, a
missing bitrate counting as zero and ties keeping the first variant seen,
and returns the base secure URL when the variant list is empty or absent. -/
theorem getMediaOriginalUrl_video_spec (m : Media)
    (h : m.type = "video" ∨ m.type = "animated_gif") :
    (mediaVariants m = [] → getMediaOriginalUrl m = m.media_url_https) ∧
    (∀ v, (mediaVariants m).find?
        (fun x => variantBitrate x == listMaxBitrate (mediaVariants m)) = some v →
      getMediaOriginalUrl m = v.url) := by
  have hcond : (m.type == "video" || m.type == "animated_gif") = true := by
    rcases h with h | h <;> simp [h]
  constructor
  · intro hv
    unfold getMediaOriginalUrl
    rw [hcond]
    simp [hv, pickMaxVariant]
  · intro v hfind
    cases hvs : mediaVariants m with
    | nil =>
      rw [hvs] at hfind
      simp at hfind
    | cons v0 rest =>
      rw [hvs] at hfind
      unfold getMediaOriginalUrl
      rw [hcond, hvs]
      simp only [List.head?]
      rw [pickMaxVariant_head, hfind]
      simp

def exVarA : Variant := ⟨some 800, "a"⟩

def exVarB : Variant := ⟨some 2000, "b"⟩

def exVarC : Variant := ⟨some 1200, "c"⟩

def exVideoMedia : Media :=
  ⟨"video", "https://video.twimg.com/base", some ⟨[exVarA, exVarB, exVarC]⟩⟩

theorem getMediaOriginalUrl_video_spec_witness :
    getMediaOriginalUrl exVideoMedia = "b" :=
  (getMediaOriginalUrl_video_spec exVideoMedia (Or.inl rfl)).2 exVarB (by decide)

/-! Lemmas for the URL formatting and extension functions. -/

theorem splitLastDot_eq : ∀ (cs b a : List Char), splitLastDot cs = some (b, a) →
    cs = b ++ '.' :: a := by
  intro cs
  induction cs with
  | nil =>
    intro b a h
    simp [splitLastDot] at h
  | cons c rest ih =>
    intro b a h
    simp only [splitLastDot] at h
    cases hr : splitLastDot rest with
    | some p =>
      obtain ⟨b', a'⟩ := p
      rw [hr] at h
      simp at h
      obtain ⟨hb, ha⟩ := h
      rw [← hb, ← ha]
      have := ih b' a' hr
      rw [this]
      rfl
    | none =>
      rw [hr] at h
      by_cases hc : c = '.'
      · subst hc
        simp at h
        obtain ⟨hb, ha⟩ := h
        subst hb
        subst ha
        rfl
      · simp [hc] at h

theorem stripMediaHost_eq (cs h r : List Char) (hs : stripMediaHost cs = some (h, r)) :
    cs = h ++ r ∧ (h = mediaHostA ∨ h = mediaHostB) := by
  unfold stripMediaHost at hs
  by_cases h1 : mediaHostA.isPrefixOf cs
  · rw [if_pos h1] at hs
    simp at hs
    obtain ⟨hh, hr⟩ := hs
    obtain ⟨t, ht⟩ := List.isPrefixOf_iff_prefix.mp h1
    have hdrop : cs.drop mediaHostA.length = t := by
      rw [← ht, List.drop_left]
    rw [← hh, ← hr, hdrop]
    exact ⟨ht.symm, Or.inl rfl⟩
  · rw [if_neg h1] at hs
    by_cases h2 : mediaHostB.isPrefixOf cs
    · rw [if_pos h2] at hs
      simp at hs
      obtain ⟨hh, hr⟩ := hs
      obtain ⟨t, ht⟩ := List.isPrefixOf_iff_prefix.mp h2
      have hdrop : cs.drop mediaHostB.length = t := by
        rw [← ht, List.drop_left]
      rw [← hh, ← hr, hdrop]
      exact ⟨ht.symm, Or.inr rfl⟩
    · rw [if_neg h2] at hs
      exact absurd hs (by simp)

theorem twitterImageMatch_some (cs h b a : List Char)
    (hm : twitterImageMatch cs = some (h, b, a)) :
    cs = h ++ b ++ '.' :: a ∧ (h = mediaHostA ∨ h = mediaHostB) ∧
    b ≠ [] ∧ a ≠ [] ∧ a.all isWordChar = true := by
  unfold twitterImageMatch at hm
  split at hm
  next hs => exact absurd hm (by simp)
  next h' r hs =>
    split at hm
    next hd => exact absurd hm (by simp)
    next b' a' hd =>
      split at hm
      next hc =>
        simp at hm
        obtain ⟨hh, hb, ha⟩ := hm
        subst hh
        subst hb
        subst ha
        obtain ⟨hcs, hhost⟩ := stripMediaHost_eq cs h' r hs
        have hr : r = b' ++ '.' :: a' := splitLastDot_eq r b' a' hd
        simp only [Bool.and_eq_true, Bool.not_eq_true', List.isEmpty_eq_false] at hc
        refine ⟨?_, hhost, hc.1.1.1, hc.1.1.2, hc.1.2⟩
        rw [hcs, hr, List.append_assoc]
      next hc => exact absurd hm (by simp)

/-- Claim C9 theorem: a URL matching the media host pattern with a dotted
extension is rewritten into the query parameter form carrying format and
name, the pieces reassembling the original URL exactly; any other URL is
returned unchanged with the name parameter appended; and the cited example
rewrite holds. -/
theorem formatTwitterImage_spec (url : String) (sz : ImageSize) :
    (twitterImageMatch url.toList = none →
      formatTwitterImage url sz = url ++ "?name=" ++ sz.toStr) ∧
    (∀ h b a, twitterImageMatch url.toList = some (h, b, a) →
      formatTwitterImage url sz =
        (h ++ b).asString ++ "?format=" ++ a.asString ++ "&name=" ++ sz.toStr ∧
      url.toList = h ++ b ++ '.' :: a ∧
      (h = mediaHostA ∨ h = mediaHostB) ∧
      b ≠ [] ∧ a ≠ [] ∧ a.all isWordChar = true) ∧
    formatTwitterImage "https://pbs.twimg.com/media/ABC123.jpg" ImageSize.orig =
      "https://pbs.twimg.com/media/ABC123?format=jpg&name=orig" := by
  refine ⟨?_, ?_, by decide⟩
  · intro hm
    unfold formatTwitterImage
    rw [hm]
  · intro h b a hm
    obtain ⟨hcs, hhost, hb, ha, hw⟩ := twitterImageMatch_some url.toList h b a hm
    refine ⟨?_, hcs, hhost, hb, ha, hw⟩
    unfold formatTwitterImage
    rw [hm]

theorem formatTwitterImage_spec_witness :
    formatTwitterImage "https://example.com/a" ImageSize.medium =
      "https://example.com/a" ++ "?name=" ++ ImageSize.medium.toStr ∧
    formatTwitterImage "https://pbs.twimg.com/media/ABC123.jpg" ImageSize.orig =
      (mediaHostA ++ "ABC123".toList).asString ++ "?format=" ++ "jpg".toList.asString ++
        "&name=" ++ ImageSize.orig.toStr :=
  ⟨(formatTwitterImage_spec "https://example.com/a" ImageSize.medium).1 (by decide),
   ((formatTwitterImage_spec "https://pbs.twimg.com/media/ABC123.jpg" ImageSize.orig).2.1
      mediaHostA "ABC123".toList "jpg".toList (by decide)).1⟩

theorem findExtMatch_eq_tails (cs : List Char) :
    findExtMatch cs = (cs.tails.filterMap tryExtAlts).head? := by
  induction cs with
  | nil => decide
  | cons c rest ih =>
    rw [List.tails_cons]
    simp only [findExtMatch, List.filterMap_cons]
    cases h : tryExtAlts (c :: rest) with
    | some m => simp [h]
    | none => simp [h, ih]

/-- Claim C3 counterexample: on this URL the code returns the capture of the
earlier dotted match, the letter b, while the attempt order stated in the
claim would return the format parameter value png, so the two differ. -/
theorem getFileExtensionFromUrl_order_counterexample :
    getFileExtensionFromUrl "https://pbs.twimg.com/a.b?x=1&format=png" = "b" ∧
    specFileExtensionClaim "https://pbs.twimg.com/a.b?x=1&format=png" = "png" ∧
    ¬ getFileExtensionFromUrl "https://pbs.twimg.com/a.b?x=1&format=png" =
      specFileExtensionClaim "https://pbs.twimg.com/a.b?x=1&format=png" :=
  ⟨by decide, by decide, by decide⟩

/-- Claim C3 amended theorem: getFileExtensionFromUrl returns the capture of
the leftmost position at which any of the three alternatives matches, the
alternatives tried in pattern order at each position, defaulting to jpg when
no position matches; the two cited example URLs yield png and jpg. -/
theorem getFileExtensionFromUrl_leftmost :
    (∀ url : String, getFileExtensionFromUrl url =
      (match (url.toList.tails.filterMap tryExtAlts).head? with
       | some m => (extGroupValue m).asString
       | none => "jpg")) ∧
    getFileExtensionFromUrl
      "https://pbs.twimg.com/card_img/123/Y1N?format=png&name=orig" = "png" ∧
    getFileExtensionFromUrl "https://pbs.twimg.com/profile_banners/468/169" = "jpg" := by
  refine ⟨?_, by decide, by decide⟩
  intro url
  unfold getFileExtensionFromUrl
  rw [findExtMatch_eq_tails]

end TwitterApi
